import Mathlib

/-!
# Extended-attribute wrappers (`xattr.go`): embedding and verified properties

The four exported Go functions `Removexattr`, `Setxattr`, `Getxattr` and
`Listxattr` are embedded as state-passing Lean functions.  The C primitives
they call through cgo are not part of the package; they are a parameter
`os : OS σ`, a transition function from the state of the outside world and a
call to a reply and a new state.  Every call is recorded together with its reply,
so that statements about which calls are issued, and with which arguments, can be
made.

Conventions of the embedding:

* a Go `[]byte` or `string` is a `List Byte`; the `nil` slice is `[]`;
* a Go `error` is an `Option Errno` (`none` is `nil`);
* a Go run-time panic is the `Result.panic` outcome;
* `defer C.free(...)` has no observable effect and is left out;
* `make` panics for a length outside the range the Go run time accepts; within
  that range the allocation is taken to succeed.
-/

namespace Xattr

/-! ## Data model -/

/-- One Go `byte`. -/
abbrev Byte := Fin 256

/-- The value of C `errno`; `0` means that no error was recorded. -/
abbrev Errno := Nat

/-- `XATTR_MAXNAMELEN` of `xattr.go`. -/
def XATTR_MAXNAMELEN : Nat := 127

/-- `XATTR_MAXSIZE` of `xattr.go`. -/
def XATTR_MAXSIZE : Nat := 64 * 1024 * 1024

/-- The Go run-time panics the four functions can raise. -/
inductive GoPanic where
  /-- `index out of range [i] with length len`, raised by `&s[i]`. -/
  | indexOutOfRange (i len : Nat)
  /-- `slice bounds out of range [:x] with capacity cap`, raised by `s[:x]`. -/
  | sliceBoundsOutOfRange (x : Int) (cap : Nat)
  /-- `makeslice: len out of range`, raised by `make([]byte, n)` for `n < 0` and for
  `n` above the allocation limit. -/
  | makesliceLenOutOfRange
  deriving DecidableEq, Repr

/-- Outcome of a Go function call: it returns its value together with its
`error`, or it panics. -/
inductive Result (α : Type) where
  | ret (val : α) (err : Option Errno)
  | panic (p : GoPanic)
  deriving DecidableEq, Repr

/-- One call of a C primitive of `<sys/xattr.h>`, with the arguments in the order of
the C prototype.  A destination pointer is `none` for `NULL` and `some buf` for a
pointer to the first byte of the buffer `buf`. -/
inductive Call where
  | removexattr (path name : List Byte) (options : Int)
  | setxattr (path name : List Byte) (value : List Byte) (size : Nat) (position : Nat)
      (options : Int)
  | getxattr (path name : List Byte) (value : Option (List Byte)) (size : Nat)
      (position : Nat) (options : Int)
  | listxattr (path : List Byte) (namebuf : Option (List Byte)) (size : Nat) (options : Int)
  deriving DecidableEq, Repr

/-- What a C primitive reports: its return value, the value of `errno` after the call
(`0` when it was not set), and the bytes it stored through its destination pointer. -/
structure Reply where
  ret : Int
  errno : Errno
  out : List Byte
  deriving DecidableEq, Repr

/-- The operating system: the collaborator behind the C primitives. -/
abbrev OS (σ : Type) := σ → Call → Reply × σ

/-- State of the outside world together with the calls issued so far, oldest first. -/
structure World (σ : Type) where
  state : σ
  log : List (Call × Reply)

/-- The options argument of a logged call. -/
def Call.options : Call → Int
  | Call.removexattr _ _ o => o
  | Call.setxattr _ _ _ _ _ o => o
  | Call.getxattr _ _ _ _ _ o => o
  | Call.listxattr _ _ _ o => o

/-- `C.CString(s)`: the NUL-terminated copy of `s`, given by the bytes C code reads
from it, which are those before the first NUL. -/
def CString (s : List Byte) : List Byte := s.takeWhile (fun b => b != 0)

/-- `C.int(x)`: conversion of a Go `int` to the 32-bit signed C `int`. -/
def C_int (x : Int) : Int := (x + 2 ^ 31) % 2 ^ 32 - 2 ^ 31

/-- `C.size_t(x)`: conversion of a Go `int` to the 64-bit unsigned C `size_t`. -/
def C_size_t (x : Int) : Nat := (x % 2 ^ 64).toNat

/-- The `err` result of a two-valued cgo call: non-nil exactly when `errno` is
non-zero after the call. -/
def cgoErr (errno : Errno) : Option Errno := if errno = 0 then none else some errno

/-- The largest length `make([]byte, n)` accepts: `maxAlloc` of the Go run time, which
is `2 ^ 48` on the 64-bit platforms the package builds for.  The constant belongs to
the Go run time, not to the package. -/
def maxAlloc : Int := 281474976710656

/-- `make([]byte, size)`: a zero-filled slice; `none` is the run-time panic
`makeslice: len out of range`, raised for a negative length and for a length above
`maxAlloc`. -/
def make (size : Int) : Option (List Byte) :=
  if size < 0 ∨ maxAlloc < size then none else some (List.replicate size.toNat 0)

/-- `&s[0]`: defined only when the slice has a first element; `none` is the index
panic. -/
def addrOfFirst (s : List Byte) : Option Unit :=
  match s with
  | [] => none
  | _ :: _ => some ()

/-- `s[:x]` for a slice whose capacity equals its length; `none` is the slice-bounds
panic. -/
def sliceTo (s : List Byte) (x : Int) : Option (List Byte) :=
  if x < 0 ∨ (s.length : Int) < x then none else some (s.take x.toNat)

/-- Contents of the buffer `buf` after a primitive has stored `out` at its start;
the store never extends past the end of the buffer. -/
def stored (buf out : List Byte) : List Byte :=
  out.take buf.length ++ buf.drop out.length

/-- Issue one call of a C primitive and record it with its reply. -/
def ccall {σ : Type} (os : OS σ) (c : Call) (w : World σ) : Reply × World σ :=
  ((os w.state c).1, ⟨(os w.state c).2, w.log ++ [(c, (os w.state c).1)]⟩)

/-! ## `bytes.Split` and the decoding loop of `Listxattr` -/

/-- `bytes.IndexByte(s, c)`: index of the first `c` in `s`. -/
def indexByte (s : List Byte) (c : Byte) : Option Nat :=
  match s with
  | [] => none
  | b :: bs => if b = c then some 0 else (indexByte bs c).map (fun i => i + 1)

/-- `bytes.Count(s, []byte{c})`: number of occurrences of `c` in `s`. -/
def countByte (s : List Byte) (c : Byte) : Nat :=
  match s with
  | [] => 0
  | b :: bs => if b = c then countByte bs c + 1 else countByte bs c

/-- The loop of `genSplit` for a one-byte separator, run for at most `k` cuts: find
the next separator, emit what precedes it, continue behind it; the rest of the input
is the last segment. -/
def splitLoop (c : Byte) : Nat → List Byte → List (List Byte)
  | 0, s => [s]
  | k + 1, s =>
    match indexByte s c with
    | none => [s]
    | some m => s.take m :: splitLoop c k (s.drop (m + 1))

/-- `bytes.Split(s, []byte{c})`: `genSplit` with `n = Count(s, sep) + 1` segments. -/
def bytesSplit (s : List Byte) (c : Byte) : List (List Byte) :=
  splitLoop c (countByte s c) s

/-- Lines 100-109 of `xattr.go`: split the buffer on NUL and append every segment of
positive length to `result`, in order. -/
def decodeNames (buf : List Byte) : List (List Byte) :=
  (bytesSplit buf 0).foldl (fun result v => if v.length > 0 then result ++ [v] else result) []

/-! ## The four exported functions -/

/-- `Removexattr` of `xattr.go`. -/
def Removexattr {σ : Type} (os : OS σ) (path name : List Byte) (options : Int)
    (w : World σ) : Result Unit × World σ :=
  let p := CString path
  let n := CString name
  let c := ccall os (Call.removexattr p n (C_int options)) w
  match cgoErr c.1.errno with
  | some err => (Result.ret () (some err), c.2)
  | none => (Result.ret () none, c.2)

/-- `Setxattr` of `xattr.go`. -/
def Setxattr {σ : Type} (os : OS σ) (path name : List Byte) (data : List Byte)
    (options : Int) (w : World σ) : Result Unit × World σ :=
  let p := CString path
  let n := CString name
  match addrOfFirst data with
  | none => (Result.panic (GoPanic.indexOutOfRange 0 data.length), w)
  | some _ =>
    let c := ccall os (Call.setxattr p n data (C_size_t data.length) 0 (C_int options)) w
    match cgoErr c.1.errno with
    | some err => (Result.ret () (some err), c.2)
    | none => (Result.ret () none, c.2)

/-- `Getxattr` of `xattr.go`. -/
def Getxattr {σ : Type} (os : OS σ) (path name : List Byte) (options : Int)
    (w : World σ) : Result (List Byte) × World σ :=
  let p := CString path
  let n := CString name
  -- get size of data for attribute
  let q := ccall os (Call.getxattr p n none 0 0 0) w
  match cgoErr q.1.errno with
  | some err => (Result.ret [] (some err), q.2)
  | none =>
    let size : Int := q.1.ret
    -- get data for attribute
    match make size with
    | none => (Result.panic GoPanic.makesliceLenOutOfRange, q.2)
    | some buf =>
      match addrOfFirst buf with
      | none => (Result.panic (GoPanic.indexOutOfRange 0 buf.length), q.2)
      | some _ =>
        let f := ccall os (Call.getxattr p n (some buf) (C_size_t size) 0 (C_int options)) q.2
        match cgoErr f.1.errno with
        | some err => (Result.ret [] (some err), f.2)
        | none =>
          match sliceTo (stored buf f.1.out) f.1.ret with
          | none => (Result.panic (GoPanic.sliceBoundsOutOfRange f.1.ret buf.length), f.2)
          | some v => (Result.ret v none, f.2)

/-- `Listxattr` of `xattr.go`. -/
def Listxattr {σ : Type} (os : OS σ) (path : List Byte) (options : Int)
    (w : World σ) : Result (List (List Byte)) × World σ :=
  let p := CString path
  -- get size of buffer needed for attribute names
  let q := ccall os (Call.listxattr p none 0 0) w
  match cgoErr q.1.errno with
  | some err => (Result.ret [] (some err), q.2)
  | none =>
    -- get attribute names
    let size : Int := q.1.ret
    match make size with
    | none => (Result.panic GoPanic.makesliceLenOutOfRange, q.2)
    | some buf =>
      match addrOfFirst buf with
      | none => (Result.panic (GoPanic.indexOutOfRange 0 buf.length), q.2)
      | some _ =>
        let f := ccall os (Call.listxattr p (some buf) (C_size_t size) (C_int options)) q.2
        match cgoErr f.1.errno with
        | some err => (Result.ret [] (some err), f.2)
        | none =>
          -- split attribute names into string array
          (Result.ret (decodeNames (stored buf f.1.out)) none, f.2)

/-! ## Models of the operating system -/

/-- Modelled from the spec: the value of `C.XATTR_NOFOLLOW`, defined by `<sys/xattr.h>`,
which is not part of the package ("Option flags ... no-follow-symlink"). -/
def XATTR_NOFOLLOW : Int := 1

/-- Modelled from the spec: the value of `C.XATTR_CREATE` of `<sys/xattr.h>`
("create-only"). -/
def XATTR_CREATE : Int := 2

/-- Modelled from the spec: the value of `C.XATTR_REPLACE` of `<sys/xattr.h>`
("replace-only"). -/
def XATTR_REPLACE : Int := 4

/-- Modelled from the spec: the native error number of the `NotFound` kind; the
number is defined by the platform's `<errno.h>`, which is not part of the package. -/
def ENOATTR : Errno := 93

/-- Modelled from the spec: the native error number of the `AlreadyExists` kind. -/
def EEXIST : Errno := 17

/-- Modelled from the spec: the native error number of the `InvalidArgument` kind. -/
def EINVAL : Errno := 22

/-- Modelled from the spec: the native error number of the size-changed
(`ERANGE`-class) kind. -/
def ERANGE : Errno := 34

/-- Whether the one-bit flag `flag` is set in `options`. -/
def hasFlag (options flag : Int) : Bool := (options / flag) % 2 == 1

/-- Modelled from the spec: the attributes held by the file system, as
`((path, name), value)` entries in storage order. -/
abbrev Store := List ((List Byte × List Byte) × List Byte)

/-- Value stored under a key. -/
def Store.find (s : Store) (k : List Byte × List Byte) : Option (List Byte) :=
  match s with
  | [] => none
  | e :: es => if e.1 = k then some e.2 else Store.find es k

/-- Store a value under a key, replacing the value in place when the key is present
and appending a new entry otherwise. -/
def Store.put (s : Store) (k : List Byte × List Byte) (v : List Byte) : Store :=
  match s with
  | [] => [(k, v)]
  | e :: es => if e.1 = k then (k, v) :: es else e :: Store.put es k v

/-- Delete the entry of a key. -/
def Store.erase (s : Store) (k : List Byte × List Byte) : Store :=
  s.filter (fun e => e.1 != k)

/-- The raw name list of an object: each of its attribute names followed by NUL. -/
def Store.names (s : Store) (path : List Byte) : List Byte :=
  match s with
  | [] => []
  | e :: es => if e.1.1 = path then e.1.2 ++ 0 :: Store.names es path else Store.names es path

/-- Modelled from the spec: the convention shared by the two fetch primitives
("passing a null/zero-length buffer performs a size query only (returns required
size, writes nothing); passing a real buffer performs the actual fetch and returns
the number of bytes written"); a value that does not fit is the `ERANGE`-class
failure. -/
def fetchReply (v : List Byte) (dest : Option (List Byte)) (size : Nat) : Reply :=
  match dest with
  | none => ⟨v.length, 0, []⟩
  | some _ =>
    if size = 0 then ⟨v.length, 0, []⟩
    else if size < v.length then ⟨-1, ERANGE, []⟩
    else ⟨v.length, 0, v⟩

/-- Modelled from the spec: the four OS primitives over a `Store`, following
sections 4.3 and 6 of the specification.  Every path names an existing object. -/
def storeOS : OS Store := fun s c =>
  match c with
  | Call.removexattr p n _ =>
    match s.find (p, n) with
    | none => (⟨-1, ENOATTR, []⟩, s)
    | some _ => (⟨0, 0, []⟩, s.erase (p, n))
  | Call.setxattr p n value size _ options =>
    if XATTR_MAXNAMELEN < n.length ∨ XATTR_MAXSIZE < size then (⟨-1, EINVAL, []⟩, s)
    else if hasFlag options XATTR_CREATE && (s.find (p, n)).isSome then (⟨-1, EEXIST, []⟩, s)
    else if hasFlag options XATTR_REPLACE && (s.find (p, n)).isNone then (⟨-1, ENOATTR, []⟩, s)
    else (⟨0, 0, []⟩, s.put (p, n) (value.take size))
  | Call.getxattr p n dest size _ _ =>
    match s.find (p, n) with
    | none => (⟨-1, ENOATTR, []⟩, s)
    | some v => (fetchReply v dest size, s)
  | Call.listxattr p dest size _ => (fetchReply (s.names p) dest size, s)

/-- An OS that answers the calls it receives with a prepared sequence of replies,
whatever the call; it is used to replay a race between a size query and a fetch. -/
def scriptOS : OS (List Reply) := fun s _ =>
  match s with
  | [] => (⟨-1, EINVAL, []⟩, [])
  | r :: rs => (r, rs)

/-- The round trip of the specification: `Setxattr(path, name, data, 0)` and, when it
returned without error, `Getxattr(path, name, 0)`. -/
def setThenGet {σ : Type} (os : OS σ) (path name data : List Byte) (w : World σ) :
    Result (List Byte) × World σ :=
  match Setxattr os path name data 0 w with
  | (Result.ret _ none, w1) => Getxattr os path name 0 w1
  | (Result.ret _ (some err), w1) => (Result.ret [] (some err), w1)
  | (Result.panic p, w1) => (Result.panic p, w1)

/-- The decoding contract in the words of the specification: split the buffer on the
NUL byte and keep the non-empty segments. -/
def specDecode (buf : List Byte) : List (List Byte) :=
  (buf.splitOn 0).filter (fun seg => seg ≠ [])

/-- The maximal runs of non-NUL bytes of a buffer, from left to right: NUL bytes are
skipped, and a non-NUL byte starts a run that extends up to the next NUL or the end
of the buffer. -/
def nulRuns (buf : List Byte) : List (List Byte) :=
  match buf with
  | [] => []
  | b :: bs =>
    if b = 0 then nulRuns bs
    else (b :: bs.takeWhile (fun x => x != 0)) :: nulRuns (bs.dropWhile (fun x => x != 0))
termination_by buf.length
decreasing_by
  · simp
  · simp only [List.length_cons]
    exact Nat.lt_succ_of_le (List.Sublist.length_le (List.dropWhile_sublist _))

/-! ## Auxiliary lemmas -/

theorem splitLoop_nil (c : Byte) (k : Nat) : splitLoop c k [] = [[]] := by
  cases k <;> simp [splitLoop, indexByte]

theorem splitLoop_cons_sep (c : Byte) (k : Nat) (bs : List Byte) :
    splitLoop c (k + 1) (c :: bs) = [] :: splitLoop c k bs := by
  simp [splitLoop, indexByte]

theorem splitLoop_cons_other (c b : Byte) (h : b ≠ c) (k : Nat) (bs : List Byte) :
    splitLoop c k (b :: bs) = (splitLoop c k bs).modifyHead (List.cons b) := by
  cases k with
  | zero => simp [splitLoop]
  | succ k =>
    cases hi : indexByte bs c with
    | none => simp [splitLoop, indexByte, h, hi]
    | some m => simp [splitLoop, indexByte, h, hi]

theorem splitLoop_eq_splitOn (c : Byte) (s : List Byte) :
    ∀ k, countByte s c ≤ k → splitLoop c k s = s.splitOn c := by
  induction s with
  | nil => intro k _; simp [splitLoop_nil, List.splitOn]
  | cons b bs ih =>
    intro k hk
    by_cases h : b = c
    · subst h
      simp only [countByte, if_true] at hk
      obtain ⟨j, rfl⟩ : ∃ j, k = j + 1 := ⟨k - 1, by omega⟩
      rw [splitLoop_cons_sep, ih j (by omega)]
      simp [List.splitOn, List.splitOnP_cons]
    · simp only [countByte, if_neg h] at hk
      rw [splitLoop_cons_other c b h, ih k hk]
      simp [List.splitOn, List.splitOnP_cons, h]

theorem bytesSplit_eq_splitOn (s : List Byte) (c : Byte) : bytesSplit s c = s.splitOn c :=
  splitLoop_eq_splitOn c s _ (Nat.le_refl _)

theorem foldl_keep_nonempty (l acc : List (List Byte)) :
    l.foldl (fun result v => if v.length > 0 then result ++ [v] else result) acc
      = acc ++ l.filter (fun seg => seg ≠ []) := by
  induction l generalizing acc with
  | nil => simp
  | cons v vs ih =>
    cases v with
    | nil => simp [ih]
    | cons x xs => simp [ih]

theorem decodeNames_eq_specDecode (buf : List Byte) : decodeNames buf = specDecode buf := by
  simp [decodeNames, specDecode, bytesSplit_eq_splitOn, foldl_keep_nonempty]

theorem splitOn_zero_replicate (k : Nat) :
    (List.replicate k (0 : Byte)).splitOn 0 = [] :: List.replicate k [] := by
  induction k with
  | zero => simp [List.splitOn]
  | succ k ih =>
    simp only [List.splitOn] at ih
    simp [List.splitOn, List.replicate_succ, List.splitOnP_cons, ih]

theorem splitOn_append_zeros (xs : List Byte) (k : Nat) :
    (xs ++ List.replicate k 0).splitOn 0 = xs.splitOn 0 ++ List.replicate k [] := by
  induction xs with
  | nil => simpa [List.splitOn] using splitOn_zero_replicate k
  | cons x xs ih =>
    simp only [List.splitOn] at ih
    by_cases h : x = 0
    · simp [List.splitOn, List.splitOnP_cons, h, ih]
    · have hne : List.splitOnP (fun b => b == (0 : Byte)) xs ≠ [] := List.splitOnP_ne_nil _ _
      cases hs : List.splitOnP (fun b => b == (0 : Byte)) xs with
      | nil => exact absurd hs hne
      | cons seg segs => simp [List.splitOn, List.splitOnP_cons, h, ih, hs]

theorem specDecode_append_zeros (xs : List Byte) (k : Nat) :
    specDecode (xs ++ List.replicate k 0) = specDecode xs := by
  simp [specDecode, splitOn_append_zeros]

theorem make_of_range (n : Int) (h : 0 ≤ n) (hmax : n ≤ maxAlloc) :
    make n = some (List.replicate n.toNat 0) := by
  simp [make, not_lt.mpr h, not_lt.mpr hmax]

theorem make_zero : make 0 = some [] := by
  simp [make, maxAlloc]

theorem make_of_large (n : Int) (h : maxAlloc < n) : make n = none := by
  simp [make, h]

theorem addrOfFirst_replicate (n : Int) (h : 0 < n) :
    addrOfFirst (List.replicate n.toNat (0 : Byte)) = some () := by
  obtain ⟨k, hk⟩ : ∃ k, n.toNat = k + 1 := ⟨n.toNat - 1, by omega⟩
  simp [hk, List.replicate_succ, addrOfFirst]

theorem length_stored (buf out : List Byte) : (stored buf out).length = buf.length := by
  simp [stored]
  omega

theorem stored_zeros (n : Nat) (out : List Byte) (h : out.length ≤ n) :
    stored (List.replicate n 0) out = out ++ List.replicate (n - out.length) 0 := by
  simp [stored, List.take_of_length_le h]

theorem sliceTo_of_le (s : List Byte) (x : Int) (h0 : 0 ≤ x) (h1 : x ≤ (s.length : Int)) :
    sliceTo s x = some (s.take x.toNat) := by
  simp [sliceTo, not_lt.mpr h0, not_lt.mpr h1]

theorem cgoErr_zero : cgoErr 0 = none := rfl

theorem cgoErr_of_ne (e : Errno) (h : e ≠ 0) : cgoErr e = some e := by
  simp [cgoErr, h]

/-- The path of `Getxattr` on which both calls succeed and the reported count fits
the buffer. -/
theorem Getxattr_of_replies {σ : Type} (os : OS σ) (path name : List Byte) (options : Int)
    (w : World σ) (q f : Reply) (s1 s2 : σ)
    (hq : os w.state (Call.getxattr (CString path) (CString name) none 0 0 0) = (q, s1))
    (hq0 : q.errno = 0) (hn : 0 < q.ret) (hmax : q.ret ≤ maxAlloc)
    (hf : os s1 (Call.getxattr (CString path) (CString name)
      (some (List.replicate q.ret.toNat 0)) (C_size_t q.ret) 0 (C_int options)) = (f, s2))
    (hf0 : f.errno = 0) (hx0 : 0 ≤ f.ret) (hxn : f.ret ≤ q.ret) :
    Getxattr os path name options w =
      (Result.ret ((stored (List.replicate q.ret.toNat 0) f.out).take f.ret.toNat) none,
        ⟨s2, w.log ++ [(Call.getxattr (CString path) (CString name) none 0 0 0, q),
          (Call.getxattr (CString path) (CString name)
            (some (List.replicate q.ret.toNat 0)) (C_size_t q.ret) 0 (C_int options), f)]⟩) := by
  have hlen : f.ret ≤ ((stored (List.replicate q.ret.toNat 0) f.out).length : Int) := by
    rw [length_stored, List.length_replicate]
    omega
  simp only [Getxattr, ccall, hq, hq0, cgoErr_zero, make_of_range q.ret (le_of_lt hn) hmax,
    addrOfFirst_replicate q.ret hn, hf, hf0, sliceTo_of_le _ _ hx0 hlen]
  simp

/-- The path of `Listxattr` on which both calls succeed. -/
theorem Listxattr_of_replies {σ : Type} (os : OS σ) (path : List Byte) (options : Int)
    (w : World σ) (q f : Reply) (s1 s2 : σ)
    (hq : os w.state (Call.listxattr (CString path) none 0 0) = (q, s1))
    (hq0 : q.errno = 0) (hn : 0 < q.ret) (hmax : q.ret ≤ maxAlloc)
    (hf : os s1 (Call.listxattr (CString path)
      (some (List.replicate q.ret.toNat 0)) (C_size_t q.ret) (C_int options)) = (f, s2))
    (hf0 : f.errno = 0) :
    Listxattr os path options w =
      (Result.ret (decodeNames (stored (List.replicate q.ret.toNat 0) f.out)) none,
        ⟨s2, w.log ++ [(Call.listxattr (CString path) none 0 0, q),
          (Call.listxattr (CString path)
            (some (List.replicate q.ret.toNat 0)) (C_size_t q.ret) (C_int options), f)]⟩) := by
  simp only [Listxattr, ccall, hq, hq0, cgoErr_zero, make_of_range q.ret (le_of_lt hn) hmax,
    addrOfFirst_replicate q.ret hn, hf, hf0]
  simp

theorem specDecode_cons_zero (bs : List Byte) : specDecode (0 :: bs) = specDecode bs := by
  simp [specDecode, List.splitOn, List.splitOnP_cons]

theorem specDecode_run (run rest : List Byte) (hrun : run ≠ []) (h0 : ∀ x ∈ run, x ≠ 0)
    (hrest : rest = [] ∨ ∃ t, rest = 0 :: t) :
    specDecode (run ++ rest) = run :: specDecode rest := by
  have hp : ∀ x ∈ run, ¬ ((fun b : Byte => b == 0) x = true) := by
    intro x hx
    simpa using h0 x hx
  rcases hrest with rfl | ⟨t, rfl⟩
  · simp [specDecode, List.splitOn, List.splitOnP_eq_single (fun b : Byte => b == 0) run hp, hrun]
  · have := List.splitOnP_first (fun b : Byte => b == 0) run hp 0 (by simp) t
    simp [specDecode, List.splitOn, this, hrun, List.splitOnP_cons]

theorem specDecode_eq_nulRuns_of_length (n : Nat) :
    ∀ buf : List Byte, buf.length ≤ n → specDecode buf = nulRuns buf := by
  induction n with
  | zero =>
    intro buf h
    have : buf = [] := List.length_eq_zero.mp (Nat.le_zero.mp h)
    subst this
    simp [specDecode, nulRuns, List.splitOn]
  | succ n ih =>
    intro buf h
    cases buf with
    | nil => simp [specDecode, nulRuns, List.splitOn]
    | cons b bs =>
      have hbs : bs.length ≤ n := by simpa using h
      rw [nulRuns]
      by_cases hb : b = 0
      · subst hb
        simp only [if_true]
        rw [specDecode_cons_zero]
        exact ih bs hbs
      · simp only [if_neg hb]
        have hsplit : b :: bs = (b :: bs.takeWhile (fun x => x != 0))
            ++ bs.dropWhile (fun x => x != 0) := by
          simp [List.takeWhile_append_dropWhile]
        have hrest : bs.dropWhile (fun x => x != 0) = [] ∨
            ∃ t, bs.dropWhile (fun x => x != 0) = 0 :: t := by
          cases hd : bs.dropWhile (fun x => x != 0) with
          | nil => exact Or.inl rfl
          | cons y t =>
            right
            have := List.head_dropWhile_not (fun x : Byte => x != 0) bs (by simp [hd])
            simp [hd] at this
            exact ⟨t, by rw [this]⟩
        have hrun : ∀ x ∈ b :: bs.takeWhile (fun x => x != 0), x ≠ 0 := by
          intro x hx
          rcases List.mem_cons.mp hx with rfl | hx
          · exact hb
          · simpa using List.mem_takeWhile_imp hx
        conv_lhs => rw [hsplit]
        rw [specDecode_run _ _ (by simp) hrun hrest]
        congr 1
        exact ih _ (Nat.le_trans (List.Sublist.length_le (List.dropWhile_sublist _)) hbs)

theorem specDecode_eq_nulRuns (buf : List Byte) : specDecode buf = nulRuns buf :=
  specDecode_eq_nulRuns_of_length buf.length buf (Nat.le_refl _)

theorem cgoErr_eq_none (e : Errno) : cgoErr e = none ↔ e = 0 := by
  unfold cgoErr
  split <;> simp_all

theorem make_of_neg (n : Int) (h : n < 0) : make n = none := by
  simp [make, h]

/-- Every run of `Getxattr` follows one of four paths: the size query fails; the size
query succeeds with a size that is not positive or exceeds the limit of `make`, and
the call panics before any fetch; the fetch fails; the fetch succeeds. -/
theorem Getxattr_trace {σ : Type} (os : OS σ) (path name : List Byte) (options : Int)
    (w : World σ) :
    let c1 := Call.getxattr (CString path) (CString name) none 0 0 0
    let q := os w.state c1
    let c2 := Call.getxattr (CString path) (CString name)
      (some (List.replicate q.1.ret.toNat 0)) (C_size_t q.1.ret) 0 (C_int options)
    let f := os q.2 c2
    let r := Getxattr os path name options w
    (q.1.errno ≠ 0 ∧ r = (Result.ret [] (some q.1.errno), ⟨q.2, w.log ++ [(c1, q.1)]⟩)) ∨
    (q.1.errno = 0 ∧ (q.1.ret ≤ 0 ∨ maxAlloc < q.1.ret) ∧ (∃ p, r.1 = Result.panic p) ∧
      r.2 = ⟨q.2, w.log ++ [(c1, q.1)]⟩) ∨
    (q.1.errno = 0 ∧ (0 < q.1.ret ∧ q.1.ret ≤ maxAlloc) ∧ f.1.errno ≠ 0 ∧
      r = (Result.ret [] (some f.1.errno), ⟨f.2, w.log ++ [(c1, q.1), (c2, f.1)]⟩)) ∨
    (q.1.errno = 0 ∧ (0 < q.1.ret ∧ q.1.ret ≤ maxAlloc) ∧ f.1.errno = 0 ∧
      ((∃ v, r.1 = Result.ret v none) ∨ ∃ p, r.1 = Result.panic p) ∧
      r.2 = ⟨f.2, w.log ++ [(c1, q.1), (c2, f.1)]⟩) := by
  intro c1 q c2 f r
  by_cases hq0 : q.1.errno = 0
  · rcases lt_trichotomy q.1.ret 0 with hneg | hzero | hpos
    · refine Or.inr (Or.inl ⟨hq0, Or.inl (le_of_lt hneg), ?_, ?_⟩)
      · exact ⟨GoPanic.makesliceLenOutOfRange, by
          simp only [r, Getxattr, ccall]
          rw [show (os w.state c1) = q from rfl]
          simp [hq0, cgoErr_zero, make_of_neg _ hneg]⟩
      · simp only [r, Getxattr, ccall]
        rw [show (os w.state c1) = q from rfl]
        simp [hq0, cgoErr_zero, make_of_neg _ hneg]
    · refine Or.inr (Or.inl ⟨hq0, Or.inl (le_of_eq hzero), ?_, ?_⟩)
      · exact ⟨GoPanic.indexOutOfRange 0 0, by
          simp only [r, Getxattr, ccall]
          rw [show (os w.state c1) = q from rfl]
          simp [hq0, cgoErr_zero, hzero, make_zero, addrOfFirst]⟩
      · simp only [r, Getxattr, ccall]
        rw [show (os w.state c1) = q from rfl]
        simp [hq0, cgoErr_zero, hzero, make_zero, addrOfFirst]
    · by_cases hmax : q.1.ret ≤ maxAlloc
      case neg =>
        refine Or.inr (Or.inl ⟨hq0, Or.inr (not_le.mp hmax), ?_, ?_⟩)
        · exact ⟨GoPanic.makesliceLenOutOfRange, by
            simp only [r, Getxattr, ccall]
            rw [show (os w.state c1) = q from rfl]
            simp [hq0, cgoErr_zero, make_of_large _ (not_le.mp hmax)]⟩
        · simp only [r, Getxattr, ccall]
          rw [show (os w.state c1) = q from rfl]
          simp [hq0, cgoErr_zero, make_of_large _ (not_le.mp hmax)]
      by_cases hf0 : f.1.errno = 0
      · refine Or.inr (Or.inr (Or.inr ⟨hq0, ⟨hpos, hmax⟩, hf0, ?_, ?_⟩))
        · simp only [r, Getxattr, ccall]
          rw [show (os w.state c1) = q from rfl]
          simp only [hq0, cgoErr_zero, make_of_range _ (le_of_lt hpos) hmax,
            addrOfFirst_replicate _ hpos]
          rw [show (os q.2 c2) = f from rfl]
          simp only [hf0, cgoErr_zero]
          split
          · exact Or.inr ⟨_, rfl⟩
          · exact Or.inl ⟨_, rfl⟩
        · simp only [r, Getxattr, ccall]
          rw [show (os w.state c1) = q from rfl]
          simp only [hq0, cgoErr_zero, make_of_range _ (le_of_lt hpos) hmax,
            addrOfFirst_replicate _ hpos]
          rw [show (os q.2 c2) = f from rfl]
          simp only [hf0, cgoErr_zero]
          split <;> simp
      · refine Or.inr (Or.inr (Or.inl ⟨hq0, ⟨hpos, hmax⟩, hf0, ?_⟩))
        simp only [r, Getxattr, ccall]
        rw [show (os w.state c1) = q from rfl]
        simp only [hq0, cgoErr_zero, make_of_range _ (le_of_lt hpos) hmax,
          addrOfFirst_replicate _ hpos]
        rw [show (os q.2 c2) = f from rfl]
        simp [cgoErr_of_ne _ hf0]
  · refine Or.inl ⟨hq0, ?_⟩
    simp only [r, Getxattr, ccall]
    rw [show (os w.state c1) = q from rfl]
    simp [cgoErr_of_ne _ hq0]

/-- Every run of `Listxattr` follows one of four paths, as for `Getxattr`. -/
theorem Listxattr_trace {σ : Type} (os : OS σ) (path : List Byte) (options : Int)
    (w : World σ) :
    let c1 := Call.listxattr (CString path) none 0 0
    let q := os w.state c1
    let c2 := Call.listxattr (CString path)
      (some (List.replicate q.1.ret.toNat 0)) (C_size_t q.1.ret) (C_int options)
    let f := os q.2 c2
    let r := Listxattr os path options w
    (q.1.errno ≠ 0 ∧ r = (Result.ret [] (some q.1.errno), ⟨q.2, w.log ++ [(c1, q.1)]⟩)) ∨
    (q.1.errno = 0 ∧ (q.1.ret ≤ 0 ∨ maxAlloc < q.1.ret) ∧ (∃ p, r.1 = Result.panic p) ∧
      r.2 = ⟨q.2, w.log ++ [(c1, q.1)]⟩) ∨
    (q.1.errno = 0 ∧ (0 < q.1.ret ∧ q.1.ret ≤ maxAlloc) ∧ f.1.errno ≠ 0 ∧
      r = (Result.ret [] (some f.1.errno), ⟨f.2, w.log ++ [(c1, q.1), (c2, f.1)]⟩)) ∨
    (q.1.errno = 0 ∧ (0 < q.1.ret ∧ q.1.ret ≤ maxAlloc) ∧ f.1.errno = 0 ∧
      r = (Result.ret (decodeNames (stored (List.replicate q.1.ret.toNat 0) f.1.out)) none,
        ⟨f.2, w.log ++ [(c1, q.1), (c2, f.1)]⟩)) := by
  intro c1 q c2 f r
  by_cases hq0 : q.1.errno = 0
  · rcases lt_trichotomy q.1.ret 0 with hneg | hzero | hpos
    · refine Or.inr (Or.inl ⟨hq0, Or.inl (le_of_lt hneg), ?_, ?_⟩)
      · exact ⟨GoPanic.makesliceLenOutOfRange, by
          simp only [r, Listxattr, ccall]
          rw [show (os w.state c1) = q from rfl]
          simp [hq0, cgoErr_zero, make_of_neg _ hneg]⟩
      · simp only [r, Listxattr, ccall]
        rw [show (os w.state c1) = q from rfl]
        simp [hq0, cgoErr_zero, make_of_neg _ hneg]
    · refine Or.inr (Or.inl ⟨hq0, Or.inl (le_of_eq hzero), ?_, ?_⟩)
      · exact ⟨GoPanic.indexOutOfRange 0 0, by
          simp only [r, Listxattr, ccall]
          rw [show (os w.state c1) = q from rfl]
          simp [hq0, cgoErr_zero, hzero, make_zero, addrOfFirst]⟩
      · simp only [r, Listxattr, ccall]
        rw [show (os w.state c1) = q from rfl]
        simp [hq0, cgoErr_zero, hzero, make_zero, addrOfFirst]
    · by_cases hmax : q.1.ret ≤ maxAlloc
      case neg =>
        refine Or.inr (Or.inl ⟨hq0, Or.inr (not_le.mp hmax), ?_, ?_⟩)
        · exact ⟨GoPanic.makesliceLenOutOfRange, by
            simp only [r, Listxattr, ccall]
            rw [show (os w.state c1) = q from rfl]
            simp [hq0, cgoErr_zero, make_of_large _ (not_le.mp hmax)]⟩
        · simp only [r, Listxattr, ccall]
          rw [show (os w.state c1) = q from rfl]
          simp [hq0, cgoErr_zero, make_of_large _ (not_le.mp hmax)]
      by_cases hf0 : f.1.errno = 0
      · refine Or.inr (Or.inr (Or.inr ⟨hq0, ⟨hpos, hmax⟩, hf0, ?_⟩))
        exact Listxattr_of_replies os path options w q.1 f.1 q.2 f.2 rfl hq0 hpos hmax rfl hf0
      · refine Or.inr (Or.inr (Or.inl ⟨hq0, ⟨hpos, hmax⟩, hf0, ?_⟩))
        simp only [r, Listxattr, ccall]
        rw [show (os w.state c1) = q from rfl]
        simp only [hq0, cgoErr_zero, make_of_range _ (le_of_lt hpos) hmax,
          addrOfFirst_replicate _ hpos]
        rw [show (os q.2 c2) = f from rfl]
        simp [cgoErr_of_ne _ hf0]
  · refine Or.inl ⟨hq0, ?_⟩
    simp only [r, Listxattr, ccall]
    rw [show (os w.state c1) = q from rfl]
    simp [cgoErr_of_ne _ hq0]

theorem C_size_t_natCast (n : Nat) (h : n < 2 ^ 64) : C_size_t (n : Int) = n := by
  unfold C_size_t
  rw [Int.emod_eq_of_lt (by omega) (by exact_mod_cast h)]
  simp

theorem C_int_of_range (x : Int) (h0 : -2 ^ 31 ≤ x) (h1 : x < 2 ^ 31) : C_int x = x := by
  unfold C_int
  rw [Int.emod_eq_of_lt (by omega) (by omega)]
  omega

theorem length_CString_le (s : List Byte) : (CString s).length ≤ s.length :=
  List.Sublist.length_le (List.takeWhile_sublist _)

theorem Store.find_put (s : Store) (k : List Byte × List Byte) (v : List Byte) :
    (s.put k v).find k = some v := by
  induction s with
  | nil => simp [Store.put, Store.find]
  | cons e es ih =>
    by_cases h : e.1 = k
    · simp [Store.put, Store.find, h]
    · simp [Store.put, Store.find, h, ih]

/-- The path of `Setxattr` taken for non-empty data: the primitive is called once and
its outcome is returned. -/
theorem Setxattr_of_nonempty {σ : Type} (os : OS σ) (path name data : List Byte)
    (options : Int) (w : World σ) (hdata : data ≠ []) :
    Setxattr os path name data options w =
      (Result.ret ()
        (cgoErr (os w.state (Call.setxattr (CString path) (CString name) data
          (C_size_t data.length) 0 (C_int options))).1.errno),
        ⟨(os w.state (Call.setxattr (CString path) (CString name) data
          (C_size_t data.length) 0 (C_int options))).2,
          w.log ++ [(Call.setxattr (CString path) (CString name) data
            (C_size_t data.length) 0 (C_int options),
            (os w.state (Call.setxattr (CString path) (CString name) data
              (C_size_t data.length) 0 (C_int options))).1)]⟩) := by
  cases data with
  | nil => exact absurd rfl hdata
  | cons b bs =>
    simp only [Setxattr, ccall, addrOfFirst]
    split <;> simp_all

/-- On the store model, the round trip returns the data that was set whenever the data
is not empty. -/
theorem setThenGet_of_nonempty (path name data : List Byte) (w : World Store)
    (hname : name.length ≤ XATTR_MAXNAMELEN) (hdata : data ≠ [])
    (hsize : data.length ≤ XATTR_MAXSIZE) :
    (setThenGet storeOS path name data w).1 = Result.ret data none := by
  have hn : ¬ XATTR_MAXNAMELEN < (CString name).length :=
    not_lt.mpr (Nat.le_trans (length_CString_le name) hname)
  have h64 : data.length < 2 ^ 64 := by
    have : XATTR_MAXSIZE < 2 ^ 64 := by decide
    omega
  have hpos : 0 < data.length := List.length_pos.mpr hdata
  have hset : Setxattr storeOS path name data 0 w =
      (Result.ret () none,
        ⟨w.state.put (CString path, CString name) data,
          w.log ++ [(Call.setxattr (CString path) (CString name) data data.length 0 0,
            ⟨0, 0, []⟩)]⟩) := by
    rw [Setxattr_of_nonempty storeOS path name data 0 w hdata, C_size_t_natCast _ h64]
    have hc : C_int 0 = 0 := by decide
    have h1 : hasFlag 0 XATTR_CREATE = false := by decide
    have h2 : hasFlag 0 XATTR_REPLACE = false := by decide
    simp [storeOS, hn, not_lt.mpr hsize, hc, h1, h2, cgoErr_zero]
  unfold setThenGet
  rw [hset]
  simp only []
  have hget := Getxattr_of_replies storeOS path name 0
    ⟨w.state.put (CString path, CString name) data,
      w.log ++ [(Call.setxattr (CString path) (CString name) data data.length 0 0,
        ⟨0, 0, []⟩)]⟩
    ⟨data.length, 0, []⟩ ⟨data.length, 0, data⟩
    (w.state.put (CString path, CString name) data)
    (w.state.put (CString path, CString name) data)
    (by simp [storeOS, Store.find_put, fetchReply]) rfl
    (show (0 : Int) < (data.length : Int) by exact_mod_cast hpos)
    (show (data.length : Int) ≤ maxAlloc by
      have h1 : ((XATTR_MAXSIZE : Nat) : Int) ≤ maxAlloc := by decide
      have h2 : (data.length : Int) ≤ ((XATTR_MAXSIZE : Nat) : Int) := by exact_mod_cast hsize
      exact le_trans h2 h1)
    (by
      simp only [storeOS, Store.find_put, fetchReply, C_size_t_natCast _ h64]
      simp [Nat.ne_of_gt hpos])
    rfl (by simp) (le_refl _)
  rw [hget]
  simp [stored_zeros]

/-- `Removexattr` calls the remove primitive once, with `C.int(options)`, and returns
the error of that call. -/
theorem Removexattr_eq {σ : Type} (os : OS σ) (path name : List Byte) (options : Int)
    (w : World σ) :
    Removexattr os path name options w =
      (Result.ret ()
        (cgoErr (os w.state (Call.removexattr (CString path) (CString name)
          (C_int options))).1.errno),
        ⟨(os w.state (Call.removexattr (CString path) (CString name) (C_int options))).2,
          w.log ++ [(Call.removexattr (CString path) (CString name) (C_int options),
            (os w.state (Call.removexattr (CString path) (CString name)
              (C_int options))).1)]⟩) := by
  simp only [Removexattr, ccall]
  split <;> simp_all

/-- A value that has grown from 4 to more than 4 bytes between the size query and the
fetch: the fetch fails with the `ERANGE`-class error, which `Getxattr` returns after
exactly two calls. -/
theorem Getxattr_grown_value_fails :
    Getxattr scriptOS [102] [107] 0 ⟨[⟨4, 0, []⟩, ⟨-1, ERANGE, []⟩], []⟩ =
      (Result.ret [] (some ERANGE),
        ⟨[], [(Call.getxattr [102] [107] none 0 0 0, ⟨4, 0, []⟩),
          (Call.getxattr [102] [107] (some [0, 0, 0, 0]) 4 0 0, ⟨-1, ERANGE, []⟩)]⟩) := by
  rfl

/-- C1 as stated is false: after a size query that reports `n = 2 ^ 62 > 0`, a size
above the limit of `make`, `Getxattr` panics in `make([]byte, size)` with only the
size query issued, although the fetch would succeed and report `x = 4 ≤ n` bytes. -/
theorem Getxattr_huge_size_panics :
    (0 : Int) < 4611686018427387904 ∧ (4 : Int) ≤ 4611686018427387904 ∧
      scriptOS [⟨4, 0, [1, 2, 3, 4]⟩]
          (Call.getxattr (CString [102]) (CString [107])
            (some (List.replicate (4611686018427387904 : Int).toNat 0))
            (C_size_t 4611686018427387904) 0 (C_int 0))
        = (⟨4, 0, [1, 2, 3, 4]⟩, []) ∧
      Getxattr scriptOS [102] [107] 0
          ⟨[⟨4611686018427387904, 0, []⟩, ⟨4, 0, [1, 2, 3, 4]⟩], []⟩
        = (Result.panic GoPanic.makesliceLenOutOfRange,
            ⟨[⟨4, 0, [1, 2, 3, 4]⟩],
              [(Call.getxattr [102] [107] none 0 0 0, ⟨4611686018427387904, 0, []⟩)]⟩) :=
  ⟨by decide, by decide, rfl, rfl⟩

/-- C1 amended: when the size query of `Getxattr` succeeds with a size `n` that is
positive and within the limit of `make` (`0 < n ≤ maxAlloc`) and the fetch into the
`n`-byte buffer succeeds and reports `x` bytes written with `0 ≤ x ≤ n`, `Getxattr`
returns, without error, exactly the first `x` bytes of the buffer as the fetch left
it; the result has length `x`, hence not length `n` when `x < n`. -/
theorem Getxattr_returns_bytes_written {σ : Type} (os : OS σ) (path name : List Byte)
    (options : Int) (w : World σ) (q f : Reply) (s1 s2 : σ)
    (hq : os w.state (Call.getxattr (CString path) (CString name) none 0 0 0) = (q, s1))
    (hq0 : q.errno = 0) (hn : 0 < q.ret) (hmax : q.ret ≤ maxAlloc)
    (hf : os s1 (Call.getxattr (CString path) (CString name)
      (some (List.replicate q.ret.toNat 0)) (C_size_t q.ret) 0 (C_int options)) = (f, s2))
    (hf0 : f.errno = 0) (hx0 : 0 ≤ f.ret) (hxn : f.ret ≤ q.ret) :
    (Getxattr os path name options w).1
        = Result.ret ((stored (List.replicate q.ret.toNat 0) f.out).take f.ret.toNat) none ∧
      (((stored (List.replicate q.ret.toNat 0) f.out).take f.ret.toNat).length : Int) = f.ret ∧
      (f.ret < q.ret →
        (((stored (List.replicate q.ret.toNat 0) f.out).take f.ret.toNat).length : Int)
          ≠ q.ret) := by
  have hlen : (((stored (List.replicate q.ret.toNat 0) f.out).take f.ret.toNat).length : Int)
      = f.ret := by
    rw [List.length_take, length_stored, List.length_replicate]
    omega
  refine ⟨?_, hlen, ?_⟩
  · rw [Getxattr_of_replies os path name options w q f s1 s2 hq hq0 hn hmax hf hf0 hx0 hxn]
  · intro hlt
    rw [hlen]
    omega

/-- Witness of the amended C1: a value of length 10 at query time that has shrunk to
the 4 bytes `1 2 3 4` at fetch time is returned as exactly those 4 bytes. -/
theorem Getxattr_returns_bytes_written_witness :
    (Getxattr scriptOS [102] [107] 0 ⟨[⟨10, 0, []⟩, ⟨4, 0, [1, 2, 3, 4]⟩], []⟩).1
      = Result.ret [1, 2, 3, 4] none :=
  (Getxattr_returns_bytes_written scriptOS [102] [107] 0
    ⟨[⟨10, 0, []⟩, ⟨4, 0, [1, 2, 3, 4]⟩], []⟩ ⟨10, 0, []⟩ ⟨4, 0, [1, 2, 3, 4]⟩
    [⟨4, 0, [1, 2, 3, 4]⟩] [] rfl rfl (by decide) (by decide) rfl rfl (by decide)
    (by decide)).1

/-- C2: the decoding loop of `Listxattr` maps every buffer to the non-empty segments
of its split on the NUL byte, in buffer order, which are the maximal runs of non-NUL
bytes from left to right; `"alpha\0beta\0"` decodes to `["alpha", "beta"]`, and both
the empty buffer and `"\0"` decode to `[]`. -/
theorem decodeNames_nonempty_segments :
    (∀ buf : List Byte, decodeNames buf = specDecode buf ∧ decodeNames buf = nulRuns buf) ∧
      decodeNames [97, 108, 112, 104, 97, 0, 98, 101, 116, 97, 0]
        = [[97, 108, 112, 104, 97], [98, 101, 116, 97]] ∧
      decodeNames [] = [] ∧ decodeNames [0] = [] := by
  refine ⟨fun buf => ⟨decodeNames_eq_specDecode buf, ?_⟩, by decide, by decide, by decide⟩
  rw [decodeNames_eq_specDecode, specDecode_eq_nulRuns]

/-- C10 as stated is false: after a list-size query that reports `n = 2 ^ 62 > 0`, a
size above the limit of `make`, `Listxattr` returns no names: it panics in
`make([]byte, size)` with only the size query issued, although the list fetch would
succeed and store `w = 4 ≤ n` bytes. -/
theorem Listxattr_huge_size_panics :
    (0 : Int) < 4611686018427387904 ∧
      (([97, 0, 98, 0] : List Byte).length : Int) ≤ 4611686018427387904 ∧
      scriptOS [⟨4, 0, [97, 0, 98, 0]⟩]
          (Call.listxattr (CString [102])
            (some (List.replicate (4611686018427387904 : Int).toNat 0))
            (C_size_t 4611686018427387904) (C_int 0))
        = (⟨4, 0, [97, 0, 98, 0]⟩, []) ∧
      Listxattr scriptOS [102] 0
          ⟨[⟨4611686018427387904, 0, []⟩, ⟨4, 0, [97, 0, 98, 0]⟩], []⟩
        = (Result.panic GoPanic.makesliceLenOutOfRange,
            ⟨[⟨4, 0, [97, 0, 98, 0]⟩],
              [(Call.listxattr [102] none 0 0, ⟨4611686018427387904, 0, []⟩)]⟩) :=
  ⟨by decide, by decide, rfl, rfl⟩

/-- C10 amended: when the list-size query of `Listxattr` succeeds with a size `n` that
is positive and within the limit of `make` (`0 < n ≤ maxAlloc`) and the list fetch
succeeds and stores `w ≤ n` bytes at the start of the zero-filled buffer, the buffer
is those bytes followed by `n - w` NUL bytes and the names returned, decoded from all
`n` bytes, are the names decoded from the `w` bytes alone: decoding is unchanged by
appending NUL bytes. -/
theorem Listxattr_ignores_byte_count {σ : Type} (os : OS σ) (path : List Byte)
    (options : Int) (w : World σ) (q f : Reply) (s1 s2 : σ)
    (hq : os w.state (Call.listxattr (CString path) none 0 0) = (q, s1))
    (hq0 : q.errno = 0) (hn : 0 < q.ret) (hmax : q.ret ≤ maxAlloc)
    (hf : os s1 (Call.listxattr (CString path)
      (some (List.replicate q.ret.toNat 0)) (C_size_t q.ret) (C_int options)) = (f, s2))
    (hf0 : f.errno = 0) (hw : (f.out.length : Int) ≤ q.ret) :
    (Listxattr os path options w).1
        = Result.ret (decodeNames (f.out ++ List.replicate (q.ret.toNat - f.out.length) 0))
            none ∧
      (Listxattr os path options w).1 = Result.ret (decodeNames f.out) none ∧
      ∀ (xs : List Byte) (k : Nat), decodeNames (xs ++ List.replicate k 0) = decodeNames xs := by
  have happ : ∀ (xs : List Byte) (k : Nat),
      decodeNames (xs ++ List.replicate k 0) = decodeNames xs := by
    intro xs k
    rw [decodeNames_eq_specDecode, decodeNames_eq_specDecode, specDecode_append_zeros]
  have hle : f.out.length ≤ q.ret.toNat := by omega
  have hrun := Listxattr_of_replies os path options w q f s1 s2 hq hq0 hn hmax hf hf0
  rw [stored_zeros _ _ hle] at hrun
  refine ⟨by rw [hrun], by rw [hrun, happ], happ⟩

/-- Witness of the amended C10: a list-size query reporting 8 bytes followed by a fetch
that stores the 4 bytes `"a\0b\0"` yields the names `["a", "b"]`. -/
theorem Listxattr_ignores_byte_count_witness :
    (Listxattr scriptOS [102] 0 ⟨[⟨8, 0, []⟩, ⟨4, 0, [97, 0, 98, 0]⟩], []⟩).1
      = Result.ret (decodeNames [97, 0, 98, 0]) none :=
  (Listxattr_ignores_byte_count scriptOS [102] 0
    ⟨[⟨8, 0, []⟩, ⟨4, 0, [97, 0, 98, 0]⟩], []⟩ ⟨8, 0, []⟩ ⟨4, 0, [97, 0, 98, 0]⟩
    [⟨4, 0, [97, 0, 98, 0]⟩] [] rfl rfl (by decide) (by decide) rfl rfl (by decide)).2.1

/-- C3 (fails on the code at empty data): on the store model the round trip
`Setxattr(path, name, [], 0)`, `Getxattr(path, name, 0)` does not return the empty
value: `Setxattr` panics on `&data[0]` before any primitive is called, and the world
is left as it was. -/
theorem setThenGet_empty_panics (path name : List Byte) (w : World Store) :
    setThenGet storeOS path name [] w = (Result.panic (GoPanic.indexOutOfRange 0 0), w) ∧
      (setThenGet storeOS path name [] w).1 ≠ Result.ret [] none := by
  have h : setThenGet storeOS path name [] w
      = (Result.panic (GoPanic.indexOutOfRange 0 0), w) := by
    simp [setThenGet, Setxattr, addrOfFirst]
  exact ⟨h, by rw [h]; simp⟩

/-- C5 (fails on the code at the size queries): whatever options value the caller
passes, both `Getxattr` and `Listxattr` issue their first call, the size query, with
the options argument `0`; for `XATTR_NOFOLLOW`, and any other non-zero value, that is
not the caller's value. -/
theorem size_query_drops_options {σ : Type} (os : OS σ) (path name : List Byte)
    (options : Int) (w : World σ) :
    (((Getxattr os path name options w).2.log.drop w.log.length).head?.map
        (fun cr => cr.1.options)) = some 0 ∧
      (((Listxattr os path options w).2.log.drop w.log.length).head?.map
        (fun cr => cr.1.options)) = some 0 ∧
      XATTR_NOFOLLOW ≠ 0 := by
  refine ⟨?_, ?_, by decide⟩
  · have h := Getxattr_trace os path name options w
    simp only [] at h
    rcases h with ⟨_, hr⟩ | ⟨_, _, _, hw⟩ | ⟨_, _, _, hr⟩ | ⟨_, _, _, _, hw⟩
    · rw [hr]; simp [Call.options]
    · rw [hw]; simp [Call.options]
    · rw [hr]; simp [Call.options]
    · rw [hw]; simp [Call.options]
  · have h := Listxattr_trace os path options w
    simp only [] at h
    rcases h with ⟨_, hr⟩ | ⟨_, _, _, hw⟩ | ⟨_, _, _, hr⟩ | ⟨_, _, _, hr⟩
    · rw [hr]; simp [Call.options]
    · rw [hw]; simp [Call.options]
    · rw [hr]; simp [Call.options]
    · rw [hr]; simp [Call.options]

/-- C6 (fails on the code): when the attribute holds the empty value, so that the size
query succeeds and reports zero, `Getxattr` panics on `&buf[0]`; only the size query
has been issued. -/
theorem Getxattr_empty_value_panics (path name : List Byte) (options : Int) :
    Getxattr storeOS path name options ⟨[((CString path, CString name), [])], []⟩ =
      (Result.panic (GoPanic.indexOutOfRange 0 0),
        ⟨[((CString path, CString name), [])],
          [(Call.getxattr (CString path) (CString name) none 0 0 0, ⟨0, 0, []⟩)]⟩) := by
  simp [Getxattr, ccall, storeOS, Store.find, fetchReply, cgoErr, make_zero, addrOfFirst]

/-- C7 (fails on the code): with empty data `Setxattr` panics on `&data[0]`, whatever
the OS, path, name and options, and no primitive is called. -/
theorem Setxattr_empty_data_panics {σ : Type} (os : OS σ) (path name : List Byte)
    (options : Int) (w : World σ) :
    Setxattr os path name [] options w = (Result.panic (GoPanic.indexOutOfRange 0 0), w) := by
  simp [Setxattr, addrOfFirst]

/-- C8 (fails on the code): when the object has no attributes, so that the list-size
query succeeds and reports zero bytes, `Listxattr` panics on `&buf[0]`. -/
theorem Listxattr_no_attributes_panics (path : List Byte) (options : Int) :
    Listxattr storeOS path options ⟨[], []⟩ =
      (Result.panic (GoPanic.indexOutOfRange 0 0),
        ⟨[], [(Call.listxattr (CString path) none 0 0, ⟨0, 0, []⟩)]⟩) := by
  simp [Listxattr, ccall, storeOS, Store.names, fetchReply, cgoErr, make_zero, addrOfFirst]

end Xattr
